import Mathlib

/-!
Verification of the `betandbeat/authorization` statement-based access-control
engine against its specification.

The Go source is shallowly embedded: the decision evaluator
(`evaluator.Evaluate` and its helpers in the core file), the in-memory
reference store (`inMemoryStorage.ListStatementsByPrincipal`), and the
principal-expansion layer (`ExpandingEvaluator.Evaluate`) become pure Lean
functions.  The third-party glob matcher (`doublestar.Match`) and expression
engine (`expr`) are external dependencies of the repository: the matcher is
modelled from the specification's description of its semantics, and condition
evaluation is an explicit oracle parameter `ec : Condition → Request →
Except String Bool` standing for `Condition.Evaluate`, whose outcome is
decided by the external expression engine.

Go strings are `String`, Go slices are `List`, Go `(T, error)` returns are
`Except String T`, and a Go `nil`-able `*string` field is `Option String`.
-/

/-- `Effect` is a Go string type; constant `EffectAllow = "allow"`. -/
def effectAllow : String := "allow"

/-- `Effect` is a Go string type; constant `EffectDeny = "deny"`. -/
def effectDeny : String := "deny"

/-- `Condition` from the domain model: a diagnostic name and an expression
string for the external expression engine. -/
structure Condition where
  Name : String := ""
  Expression : String := ""
deriving DecidableEq

/-- The request context visible to condition expressions (timestamp modelled
as a natural number, source IP, user agent). -/
structure Context where
  At : Nat := 0
  IP : String := ""
  UserAgent : String := ""
deriving DecidableEq

/-- `Request`: principal, action, resource and context of one decision
request.  `Principal`, `Action` and `Resource` are opaque Go string types. -/
structure Request where
  Principal : String := ""
  Action : String := ""
  Resource : String := ""
  Context : Context := {}
deriving DecidableEq

/-- `Statement`: one access-control statement.  Field defaults mirror Go zero
values (a Go composite literal leaves unnamed fields at their zero value).
The audit metadata fields (`CreatedAt`, `UpdatedAt`, `CreatedBy`,
`UpdatedBy`) are omitted: no decision logic reads them. -/
structure Statement where
  ID : String := ""
  Active : Bool := false
  Name : String := ""
  Description : String := ""
  Effect : String := ""
  Principals : List String := []
  Actions : List String := []
  Resources : List String := []
  Conditions : List Condition := []
deriving DecidableEq

/-- `Response`: decision effect, human-readable message, and the optional
`Decider` (`*string` in Go, `nil` ↦ `none`). -/
structure Response where
  Effect : String := ""
  Message : String := ""
  Decider : Option String := none
deriving DecidableEq

/-! ## The glob matcher

Modelled from the spec: the repository delegates pattern matching to the
third-party `doublestar` library, whose code is not part of this repository.
Spec §4.1 fixes the semantics used here: `/` separates path segments, `*`
matches any run of characters within one segment, `?` matches exactly one
character, and a pattern segment that is exactly `**` matches any number of
whole segments (including zero).  Character classes and brace alternatives
are omitted from the model; no claim exercises them.  Matching is modelled as
total (no malformed-pattern error), again because no claim exercises a
malformed pattern. -/

/-- Split a character list into its `/`-separated segments. -/
def splitSegs : List Char → List (List Char)
  | [] => [[]]
  | '/' :: rest => [] :: splitSegs rest
  | c :: rest =>
    match splitSegs rest with
    | s :: ss => (c :: s) :: ss
    | [] => [[c]]

/-- Fuelled single-segment glob matching (`*`, `?`, literal characters).
Every recursive call shrinks `pattern.length + candidate.length`, so fuel
`pattern.length + candidate.length + 1` always suffices. -/
def segMatchFuel : Nat → List Char → List Char → Bool
  | 0, _, _ => false
  | fuel + 1, pattern, candidate =>
    match pattern, candidate with
    | [], [] => true
    | '*' :: ps, cs =>
      segMatchFuel fuel ps cs ||
        (match cs with
         | [] => false
         | _ :: cs' => segMatchFuel fuel ('*' :: ps) cs')
    | '?' :: ps, _ :: cs => segMatchFuel fuel ps cs
    | p :: ps, c :: cs => p == c && segMatchFuel fuel ps cs
    | _, _ => false

/-- Single-segment glob matching with sufficient fuel. -/
def segMatch (pattern candidate : List Char) : Bool :=
  segMatchFuel (pattern.length + candidate.length + 1) pattern candidate

/-- Fuelled segment-list glob matching; a pattern segment that is exactly
`**` may consume any number of candidate segments. -/
def globMatchFuel : Nat → List (List Char) → List (List Char) → Bool
  | 0, _, _ => false
  | fuel + 1, pattern, candidate =>
    match pattern, candidate with
    | [], [] => true
    | [], _ :: _ => false
    | p :: ps, cs =>
      if p = ['*', '*'] then
        globMatchFuel fuel ps cs ||
          (match cs with
           | [] => false
           | _ :: cs' => globMatchFuel fuel (p :: ps) cs')
      else
        match cs with
        | [] => false
        | c :: cs' => segMatch p c && globMatchFuel fuel ps cs'

/-- Segment-list glob matching with sufficient fuel (every recursive call of
`globMatchFuel` shrinks `pattern.length + candidate.length`). -/
def globMatch (pattern candidate : List (List Char)) : Bool :=
  globMatchFuel (pattern.length + candidate.length + 1) pattern candidate

/-- Modelled from the spec: `doublestar.Match pattern name` of the external
`doublestar` library, per spec §4.1. -/
def doublestarMatch (pattern name : String) : Bool :=
  globMatch (splitSegs pattern.toList) (splitSegs name.toList)

/-! ## The decision evaluator (core file of the repository) -/

/-- `enhancePattern`: a bare `*` pattern is rewritten to `**` before
matching, so that it matches across `/` segments. -/
def enhancePattern (pattern : String) : String :=
  if pattern = "*" then "**" else pattern

/-- `principalMatches`: the request principal matches any of the statement's
principal patterns (patterns normalized by `enhancePattern`). -/
def principalMatches (principals : List String) (requestedPrincipal : String) : Bool :=
  principals.any fun p => doublestarMatch (enhancePattern p) requestedPrincipal

/-- `actionMatches`: the request action matches any of the statement's action
patterns. -/
def actionMatches (actions : List String) (requestedAction : String) : Bool :=
  actions.any fun a => doublestarMatch (enhancePattern a) requestedAction

/-- `resourceMatches`: the request resource matches any of the statement's
resource patterns. -/
def resourceMatches (resources : List String) (requestedResource : String) : Bool :=
  resources.any fun r => doublestarMatch (enhancePattern r) requestedResource

/-- `allConditionsMet`: all conditions must evaluate true; an evaluation
error is wrapped as `failed to evaluate condition "<name>": <err>` and
returned; a false condition yields `ok false`.  `ec` is the condition
evaluation oracle standing for `Condition.Evaluate`. -/
def allConditionsMet (ec : Condition → Request → Except String Bool) :
    List Condition → Request → Except String Bool
  | [], _ => .ok true
  | c :: rest, req =>
    match ec c req with
    | .error e => .error ("failed to evaluate condition \"" ++ c.Name ++ "\": " ++ e)
    | .ok false => .ok false
    | .ok true => allConditionsMet ec rest req

/-- `statementMatches`: principal, action and resource patterns must all
match structurally, then all conditions must be met.  A condition evaluation
error is propagated. -/
def statementMatches (ec : Condition → Request → Except String Bool)
    (stmt : Statement) (req : Request) : Except String Bool :=
  if !principalMatches stmt.Principals req.Principal then .ok false
  else if !actionMatches stmt.Actions req.Action then .ok false
  else if !resourceMatches stmt.Resources req.Resource then .ok false
  else allConditionsMet ec stmt.Conditions req

/-- `filterStatementsByEffect`: the statements of one effect, in their
original relative order. -/
def filterStatementsByEffect (statements : List Statement) (effect : String) : List Statement :=
  statements.filter fun s => s.Effect == effect

/-- The deny loop of `evaluator.Evaluate`: a condition evaluation error fails
closed (Deny, Decider = the statement), a match denies, otherwise continue. -/
def denyScan (ec : Condition → Request → Except String Bool) (req : Request) :
    List Statement → Option Response
  | [] => none
  | stmt :: rest =>
    match statementMatches ec stmt req with
    | .error e =>
      some ⟨effectDeny,
        "failed to evaluate condition for deny statement \"" ++ stmt.ID ++ "\": " ++ e,
        some stmt.ID⟩
    | .ok true =>
      some ⟨effectDeny, "denied by statement \"" ++ stmt.ID ++ "\"", some stmt.ID⟩
    | .ok false => denyScan ec req rest

/-- The allow loop of `evaluator.Evaluate`: a condition evaluation error
skips the statement (logged only), a match allows, otherwise continue. -/
def allowScan (ec : Condition → Request → Except String Bool) (req : Request) :
    List Statement → Option Response
  | [] => none
  | stmt :: rest =>
    match statementMatches ec stmt req with
    | .error _ => allowScan ec req rest
    | .ok true =>
      some ⟨effectAllow, "allowed by statement \"" ++ stmt.ID ++ "\"", some stmt.ID⟩
    | .ok false => allowScan ec req rest

/-- The default-deny response for an empty candidate set. -/
def emptyDefaultResponse : Response :=
  ⟨effectDeny, "no applicable statements found, access denied by default", none⟩

/-- The default-deny response when candidates exist but none matched. -/
def noMatchDefaultResponse : Response :=
  ⟨effectDeny, "no matching statement found, access denied by default", none⟩

/-- `evaluator.Evaluate`: list candidate statements for the request's
principal via the storage collaborator (a storage error is propagated as a
hard error), answer the empty-candidate default deny, then run the deny scan,
the allow scan, and finally the no-match default deny. -/
def evaluate (ec : Condition → Request → Except String Bool)
    (storage : String → Except String (List Statement)) (req : Request) :
    Except String Response :=
  match storage req.Principal with
  | .error e => .error ("failed to list statements: " ++ e)
  | .ok statements =>
    if statements.isEmpty then .ok emptyDefaultResponse
    else
      match denyScan ec req (filterStatementsByEffect statements effectDeny) with
      | some r => .ok r
      | none =>
        match allowScan ec req (filterStatementsByEffect statements effectAllow) with
        | some r => .ok r
        | none => .ok noMatchDefaultResponse

/-! ## The in-memory reference store -/

/-- `inMemoryStorage.ListStatementsByPrincipal`: keep every statement one of
whose principal patterns matches the given principal.  The Go store iterates
a `map[string]Statement`; the parameter `stmts` is the stored statements in
one possible iteration order.  Note: the raw pattern is matched (no
`enhancePattern`), and the `Active` flag is not consulted. -/
def listStatementsByPrincipal (stmts : List Statement) (principal : String) : List Statement :=
  stmts.filter fun stmt => stmt.Principals.any fun p => doublestarMatch p principal

/-! ## The principal-expansion layer -/

/-- Whether the wrapped evaluator produces an explicit deny (Deny effect with
non-nil Decider) for the request re-targeted at principal `p`. -/
def isExpDeny (base : Request → Except String Response) (req : Request) (p : String) : Bool :=
  match base { req with Principal := p } with
  | .ok r => r.Effect == effectDeny && r.Decider.isSome
  | .error _ => false

/-- Whether the wrapped evaluator produces an explicit allow (Allow effect
with non-nil Decider) for the request re-targeted at principal `p`. -/
def isExpAllow (base : Request → Except String Response) (req : Request) (p : String) : Bool :=
  match base { req with Principal := p } with
  | .ok r => r.Effect == effectAllow && r.Decider.isSome
  | .error _ => false

/-- The loop of `ExpandingEvaluator.Evaluate`: evaluate the request once per
resolved principal, accumulating every response, the first principal with an
explicit deny, and the first with an explicit allow.  A hard error from the
wrapped evaluator aborts the loop with a Deny response (returned in the
`Except.error` position here, turned into a normal result by the caller). -/
def expandScan (base : Request → Except String Response) (req : Request) :
    List String → Option String → Option String → List Response →
    Except Response (List Response × Option String × Option String)
  | [], denying, allowing, responses => .ok (responses, denying, allowing)
  | p :: rest, denying, allowing, responses =>
    match base { req with Principal := p } with
    | .error e =>
      .error ⟨effectDeny, "evaluation error for principal " ++ p ++ ": " ++ e, none⟩
    | .ok response =>
      expandScan base req rest
        (if response.Effect == effectDeny && denying.isNone && response.Decider.isSome
         then some p else denying)
        (if response.Effect == effectAllow && allowing.isNone && response.Decider.isSome
         then some p else allowing)
        (responses ++ [response])

/-- The default-deny response of the expansion layer. -/
def expandDefaultResponse : Response :=
  ⟨effectDeny, "no matching statements found for any expanded principal, access denied by default", none⟩

/-- `ExpandingEvaluator.Evaluate`: resolve the principal (a resolver error
becomes a Deny response, not a hard error), evaluate once per resolved
principal, then merge: first explicit deny wins, else first explicit allow,
else default deny. -/
def expandingEvaluate (base : Request → Except String Response)
    (resolve : String → Except String (List String)) (req : Request) :
    Except String Response :=
  match resolve req.Principal with
  | .error e =>
    .ok ⟨effectDeny, "failed to resolve principals: " ++ e, none⟩
  | .ok principals =>
    match expandScan base req principals none none [] with
    | .error r => .ok r
    | .ok (_, denying, allowing) =>
      match denying with
      | some p =>
        .ok ⟨effectDeny, "access denied for principal " ++ p,
          some ("principal_expansion:" ++ p)⟩
      | none =>
        match allowing with
        | some p =>
          .ok ⟨effectAllow, "access allowed for principal " ++ p,
            some ("principal_expansion:" ++ p)⟩
        | none => .ok expandDefaultResponse

/-- The merge described by spec §4.5, stated from the spec's words for
comparison with `expandingEvaluate`: the first resolved principal with an
explicit deny decides Deny; else the first with an explicit allow decides
Allow; else the expansion default deny. -/
def mergeSpec (base : Request → Except String Response) (req : Request)
    (principals : List String) : Response :=
  match principals.find? (isExpDeny base req) with
  | some p =>
    ⟨effectDeny, "access denied for principal " ++ p, some ("principal_expansion:" ++ p)⟩
  | none =>
    match principals.find? (isExpAllow base req) with
    | some p =>
      ⟨effectAllow, "access allowed for principal " ++ p, some ("principal_expansion:" ++ p)⟩
    | none => expandDefaultResponse

example : doublestarMatch "user:*" "user:123" = true := by decide
example : doublestarMatch "*" "users/mark" = false := by decide
example : doublestarMatch "**" "users/mark" = true := by decide
example : doublestarMatch "folders/*/documents/*" "folders/123/documents/456" = true := by decide
example : doublestarMatch "folders/*/documents/*" "folders/123/456" = false := by decide
example : doublestarMatch "secure/**" "secure/vault/data" = true := by decide
example : doublestarMatch "temp?" "temp1" = true := by decide

/-! ## Helper lemmas about the deny and allow scans -/

theorem denyScan_cons_false (ec : Condition → Request → Except String Bool)
    (req : Request) (stmt : Statement) (rest : List Statement)
    (h : statementMatches ec stmt req = .ok false) :
    denyScan ec req (stmt :: rest) = denyScan ec req rest := by
  simp [denyScan, h]

theorem denyScan_append_false (ec : Condition → Request → Except String Bool)
    (req : Request) (pre l : List Statement)
    (hpre : ∀ s ∈ pre, statementMatches ec s req = .ok false) :
    denyScan ec req (pre ++ l) = denyScan ec req l := by
  induction pre with
  | nil => rfl
  | cons s rest ih =>
    have hs : statementMatches ec s req = .ok false := hpre s (by simp)
    rw [List.cons_append, denyScan_cons_false ec req s (rest ++ l) hs]
    exact ih fun s' hs' => hpre s' (by simp [hs'])

theorem denyScan_eq_none_iff (ec : Condition → Request → Except String Bool)
    (req : Request) (l : List Statement) :
    denyScan ec req l = none ↔ ∀ s ∈ l, statementMatches ec s req = .ok false := by
  induction l with
  | nil => simp [denyScan]
  | cons s rest ih =>
    cases hm : statementMatches ec s req with
    | error e => simp [denyScan, hm]
    | ok b =>
      cases b with
      | true => simp [denyScan, hm]
      | false => simp [denyScan, hm, ih]

theorem denyScan_some_spec (ec : Condition → Request → Except String Bool)
    (req : Request) (l : List Statement) (r : Response)
    (h : denyScan ec req l = some r) :
    r.Effect = effectDeny ∧ r.Decider.isSome = true ∧
      ∃ s, s ∈ l ∧ r.Decider = some s.ID ∧
        (statementMatches ec s req = .ok true ∨
          ∃ e, statementMatches ec s req = .error e) := by
  induction l with
  | nil => simp [denyScan] at h
  | cons s rest ih =>
    cases hm : statementMatches ec s req with
    | error e =>
      simp [denyScan, hm] at h
      subst h
      exact ⟨rfl, rfl, s, by simp, rfl, .inr ⟨e, hm⟩⟩
    | ok b =>
      cases b with
      | true =>
        simp [denyScan, hm] at h
        subst h
        exact ⟨rfl, rfl, s, by simp, rfl, .inl hm⟩
      | false =>
        rw [denyScan_cons_false ec req s rest hm] at h
        obtain ⟨heff, hiss, s', hmem, hdec, hor⟩ := ih h
        exact ⟨heff, hiss, s', by simp [hmem], hdec, hor⟩

theorem allowScan_cons_error (ec : Condition → Request → Except String Bool)
    (req : Request) (stmt : Statement) (rest : List Statement) (e : String)
    (h : statementMatches ec stmt req = .error e) :
    allowScan ec req (stmt :: rest) = allowScan ec req rest := by
  simp [allowScan, h]

theorem allowScan_eq_none_iff (ec : Condition → Request → Except String Bool)
    (req : Request) (l : List Statement) :
    allowScan ec req l = none ↔ ∀ s ∈ l, statementMatches ec s req ≠ .ok true := by
  induction l with
  | nil => simp [allowScan]
  | cons s rest ih =>
    cases hm : statementMatches ec s req with
    | error e => simp [allowScan, hm, ih]
    | ok b =>
      cases b with
      | true => simp [allowScan, hm]
      | false => simp [allowScan, hm, ih]

theorem allowScan_some_spec (ec : Condition → Request → Except String Bool)
    (req : Request) (l : List Statement) (r : Response)
    (h : allowScan ec req l = some r) :
    r.Effect = effectAllow ∧ r.Decider.isSome = true ∧
      ∃ s, s ∈ l ∧ r.Decider = some s.ID ∧ statementMatches ec s req = .ok true := by
  induction l with
  | nil => simp [allowScan] at h
  | cons s rest ih =>
    cases hm : statementMatches ec s req with
    | error e =>
      rw [allowScan_cons_error ec req s rest e hm] at h
      obtain ⟨heff, hiss, s', hmem, hdec, hok⟩ := ih h
      exact ⟨heff, hiss, s', by simp [hmem], hdec, hok⟩
    | ok b =>
      cases b with
      | true =>
        simp [allowScan, hm] at h
        subst h
        exact ⟨rfl, rfl, s, by simp, rfl, hm⟩
      | false =>
        simp only [allowScan, hm] at h
        obtain ⟨heff, hiss, s', hmem, hdec, hok⟩ := ih h
        exact ⟨heff, hiss, s', by simp [hmem], hdec, hok⟩

theorem mem_filterStatementsByEffect (statements : List Statement) (effect : String)
    (s : Statement) :
    s ∈ filterStatementsByEffect statements effect ↔ s ∈ statements ∧ s.Effect = effect := by
  simp [filterStatementsByEffect, List.mem_filter]

/-- With a storage collaborator that answers successfully, the decision
evaluator never raises a hard error. -/
theorem evaluate_ok_of_storage_ok (ec : Condition → Request → Except String Bool)
    (stmts : List Statement) (req : Request) :
    ∃ r, evaluate ec (fun _ => .ok stmts) req = .ok r := by
  unfold evaluate
  cases h : stmts.isEmpty with
  | true => simp [h]
  | false =>
    simp only [h, if_false]
    cases hd : denyScan ec req (filterStatementsByEffect stmts effectDeny) with
    | some r => exact ⟨r, rfl⟩
    | none =>
      cases ha : allowScan ec req (filterStatementsByEffect stmts effectAllow) with
      | some r => simp [hd, ha]
      | none => simp [hd, ha]

/-! ## Helper lemmas about the expansion scan -/

/-- The first option if present, else the second: how the expansion loop's
already-recorded first denying/allowing principal combines with the rest of
the scan. -/
def orFind (d f : Option String) : Option String :=
  match d with
  | some x => some x
  | none => f

theorem orFind_none_right (d : Option String) : orFind d none = d := by
  cases d <;> rfl

/-- A hard error from the wrapped evaluator at principal `p` aborts the
expansion loop with the Deny response embedding the error text, whatever was
accumulated before. -/
theorem expandScan_error_after (base : Request → Except String Response)
    (req : Request) (pre : List String) (p : String) (post : List String) (e : String)
    (hpre : ∀ q ∈ pre, ∃ r, base { req with Principal := q } = .ok r)
    (hp : base { req with Principal := p } = .error e) :
    ∀ d a acc, expandScan base req (pre ++ p :: post) d a acc =
      .error ⟨effectDeny, "evaluation error for principal " ++ p ++ ": " ++ e, none⟩ := by
  induction pre with
  | nil =>
    intro d a acc
    simp [expandScan, hp]
  | cons q rest ih =>
    intro d a acc
    obtain ⟨r, hr⟩ := hpre q (by simp)
    rw [List.cons_append]
    simp only [expandScan, hr]
    exact ih (fun q' hq' => hpre q' (by simp [hq'])) _ _ _

/-- If the expansion loop completed, every wrapped-evaluator call along the
way succeeded. -/
theorem expandScan_ok_all_ok (base : Request → Except String Response)
    (req : Request) (ps : List String) :
    ∀ d a acc t, expandScan base req ps d a acc = .ok t →
      ∀ q ∈ ps, ∃ r, base { req with Principal := q } = .ok r := by
  induction ps with
  | nil => intro d a acc t _ q hq; simp at hq
  | cons p rest ih =>
    intro d a acc t h q hq
    cases hr : base { req with Principal := p } with
    | error e => simp [expandScan, hr] at h
    | ok r =>
      simp only [expandScan, hr] at h
      rcases List.mem_cons.mp hq with rfl | hq'
      · exact ⟨r, hr⟩
      · exact ih _ _ _ _ h q hq'

/-- Characterization of a completed expansion loop: it produces one response
per resolved principal (no early stop), and the recorded first denying /
allowing principals are the first principals whose response is an explicit
deny / allow, unless already recorded. -/
theorem expandScan_ok_spec (base : Request → Except String Response)
    (req : Request) (ps : List String)
    (h : ∀ q ∈ ps, ∃ r, base { req with Principal := q } = .ok r) :
    ∀ d a acc, ∃ rs,
      expandScan base req ps d a acc =
        .ok (rs, orFind d (ps.find? (isExpDeny base req)),
               orFind a (ps.find? (isExpAllow base req))) ∧
      rs.length = acc.length + ps.length := by
  induction ps with
  | nil =>
    intro d a acc
    exact ⟨acc, by simp [expandScan, orFind_none_right], by simp⟩
  | cons p rest ih =>
    intro d a acc
    obtain ⟨r, hr⟩ := h p (by simp)
    have hrest : ∀ q ∈ rest, ∃ r, base { req with Principal := q } = .ok r :=
      fun q hq => h q (by simp [hq])
    have hdeny : isExpDeny base req p = (r.Effect == effectDeny && r.Decider.isSome) := by
      simp [isExpDeny, hr]
    have hallow : isExpAllow base req p = (r.Effect == effectAllow && r.Decider.isSome) := by
      simp [isExpAllow, hr]
    obtain ⟨rs, hscan, hlen⟩ := ih hrest
      (if r.Effect == effectDeny && d.isNone && r.Decider.isSome then some p else d)
      (if r.Effect == effectAllow && a.isNone && r.Decider.isSome then some p else a)
      (acc ++ [r])
    refine ⟨rs, ?_, by simp [hlen]; omega⟩
    simp only [expandScan, hr, hscan]
    cases d with
    | some x =>
      cases a with
      | some y =>
        simp [orFind]
      | none =>
        simp only [Option.isNone_some, Bool.and_false, Bool.false_and, if_false,
          Option.isNone_none, Bool.and_true, Bool.true_and, orFind]
        cases hae : r.Effect == effectAllow && r.Decider.isSome with
        | true => simp [List.find?_cons, hallow, hae]
        | false => simp [List.find?_cons, hallow, hae]
    | none =>
      cases a with
      | some y =>
        simp only [Option.isNone_some, Bool.and_false, Bool.false_and, if_false,
          Option.isNone_none, Bool.and_true, Bool.true_and, orFind]
        cases hde : r.Effect == effectDeny && r.Decider.isSome with
        | true => simp [List.find?_cons, hdeny, hde]
        | false => simp [List.find?_cons, hdeny, hde]
      | none =>
        simp only [Option.isNone_none, Bool.and_true, Bool.true_and, orFind]
        cases hde : r.Effect == effectDeny && r.Decider.isSome with
        | true =>
          cases hae : r.Effect == effectAllow && r.Decider.isSome with
          | true => simp [List.find?_cons, hdeny, hde, hallow, hae]
          | false => simp [List.find?_cons, hdeny, hde, hallow, hae]
        | false =>
          cases hae : r.Effect == effectAllow && r.Decider.isSome with
          | true => simp [List.find?_cons, hdeny, hde, hallow, hae]
          | false => simp [List.find?_cons, hdeny, hde, hallow, hae]

/-- When the resolver succeeds and every per-principal evaluation succeeds,
the expansion layer returns exactly the spec §4.5 merge of the per-principal
outcomes. -/
theorem expandingEvaluate_merge (base : Request → Except String Response)
    (resolve : String → Except String (List String)) (req : Request)
    (ps : List String)
    (hres : resolve req.Principal = .ok ps)
    (h : ∀ q ∈ ps, ∃ r, base { req with Principal := q } = .ok r) :
    expandingEvaluate base resolve req = .ok (mergeSpec base req ps) := by
  obtain ⟨rs, hscan, _⟩ := expandScan_ok_spec base req ps h none none []
  simp only [expandingEvaluate, hres, hscan, orFind, mergeSpec]
  cases ps.find? (isExpDeny base req) with
  | some p => rfl
  | none =>
    cases ps.find? (isExpAllow base req) with
    | some p => rfl
    | none => rfl

/-! ## Helper lemmas about the glob matcher -/

theorem globMatchFuel_nil_pattern (f : Nat) (c : List Char) (cs : List (List Char)) :
    globMatchFuel f [] (c :: cs) = false := by
  cases f <;> simp [globMatchFuel]

/-- A pattern consisting of the single segment `**` matches any segment
list, given sufficient fuel. -/
theorem globMatchFuel_starstar (segs : List (List Char)) :
    ∀ f, segs.length + 2 ≤ f → globMatchFuel f [['*', '*']] segs = true := by
  induction segs with
  | nil =>
    intro f hf
    match f, hf with
    | f + 2, _ => simp [globMatchFuel]
  | cons c cs ih =>
    intro f hf
    match f, hf with
    | f + 1, hf =>
      simp only [globMatchFuel, if_pos rfl, globMatchFuel_nil_pattern, Bool.false_or]
      exact ih f (by simpa using hf)

/-- The pattern `**` matches every candidate string, across `/` segments. -/
theorem doublestarMatch_starstar (s : String) : doublestarMatch "**" s = true := by
  have h1 : splitSegs "**".toList = [['*', '*']] := rfl
  rw [doublestarMatch, h1, globMatch]
  exact globMatchFuel_starstar (splitSegs s.toList) _
    (by simp only [List.length_cons, List.length_nil]; omega)

theorem principalMatches_star (c : String) : principalMatches ["*"] c = true := by
  simp [principalMatches, enhancePattern, doublestarMatch_starstar]

theorem actionMatches_star (c : String) : actionMatches ["*"] c = true := by
  simp [actionMatches, enhancePattern, doublestarMatch_starstar]

theorem resourceMatches_star (c : String) : resourceMatches ["*"] c = true := by
  simp [resourceMatches, enhancePattern, doublestarMatch_starstar]

/-! ## Characterizations of the evaluator's result -/

/-- Helper: the Decider of a successful evaluation is absent exactly on the
two default-deny outcomes. -/
theorem evaluate_decider_none_iff (ec : Condition → Request → Except String Bool)
    (stmts : List Statement) (req : Request) (r : Response)
    (h : evaluate ec (fun _ => .ok stmts) req = .ok r) :
    r.Decider = none ↔ (r = emptyDefaultResponse ∨ r = noMatchDefaultResponse) := by
  unfold evaluate at h
  cases he : stmts.isEmpty with
  | true =>
    simp only [he, if_true, Except.ok.injEq] at h
    subst h
    simp [emptyDefaultResponse]
  | false =>
    simp only [he, Bool.false_eq_true, if_false] at h
    cases hd : denyScan ec req (filterStatementsByEffect stmts effectDeny) with
    | some rd =>
      simp only [hd, Except.ok.injEq] at h
      subst h
      obtain ⟨_, hiss, _⟩ := denyScan_some_spec ec req _ rd hd
      constructor
      · intro hnone; rw [hnone] at hiss; cases hiss
      · rintro (rfl | rfl) <;> simp_all [emptyDefaultResponse, noMatchDefaultResponse]
    | none =>
      simp only [hd] at h
      cases ha : allowScan ec req (filterStatementsByEffect stmts effectAllow) with
      | some ra =>
        simp only [ha, Except.ok.injEq] at h
        subst h
        obtain ⟨_, hiss, _⟩ := allowScan_some_spec ec req _ ra ha
        constructor
        · intro hnone; rw [hnone] at hiss; cases hiss
        · rintro (rfl | rfl) <;> simp_all [emptyDefaultResponse, noMatchDefaultResponse]
      | none =>
        simp only [ha, Except.ok.injEq] at h
        subst h
        simp [noMatchDefaultResponse]

/-- Whether a statement "applies" in the deny scan: its structural and
condition check is anything other than a clean non-match. -/
def appliesB (ec : Condition → Request → Except String Bool)
    (req : Request) (s : Statement) : Bool :=
  match statementMatches ec s req with
  | .ok false => false
  | _ => true

/-- Whether a statement fully matches (structural match and all conditions
true). -/
def matchesTrueB (ec : Condition → Request → Except String Bool)
    (req : Request) (s : Statement) : Bool :=
  match statementMatches ec s req with
  | .ok true => true
  | _ => false

/-- The effect the evaluator must produce, phrased on the statement set:
default deny when empty, deny when some deny statement applies (matches or
errors), allow when some allow statement fully matches, default deny
otherwise. -/
def effectSpec (ec : Condition → Request → Except String Bool)
    (req : Request) (stmts : List Statement) : String :=
  if stmts.isEmpty then effectDeny
  else if stmts.any fun s => s.Effect == effectDeny && appliesB ec req s then effectDeny
  else if stmts.any fun s => s.Effect == effectAllow && matchesTrueB ec req s then effectAllow
  else effectDeny

/-- Helper: the effect of a successful evaluation is `effectSpec`, a
function of the statement set through membership only. -/
theorem evaluate_effect_eq_effectSpec (ec : Condition → Request → Except String Bool)
    (stmts : List Statement) (req : Request) (r : Response)
    (h : evaluate ec (fun _ => .ok stmts) req = .ok r) :
    r.Effect = effectSpec ec req stmts := by
  unfold evaluate at h
  unfold effectSpec
  cases he : stmts.isEmpty with
  | true =>
    simp only [he, if_true, Except.ok.injEq] at h
    subst h
    rfl
  | false =>
    simp only [he, Bool.false_eq_true, if_false] at h
    cases hd : denyScan ec req (filterStatementsByEffect stmts effectDeny) with
    | some rd =>
      simp only [hd, Except.ok.injEq] at h
      subst h
      obtain ⟨heff, _, s, hmem, _, hor⟩ := denyScan_some_spec ec req _ rd hd
      have hs := (mem_filterStatementsByEffect stmts effectDeny s).mp hmem
      have hany : (stmts.any fun s => s.Effect == effectDeny && appliesB ec req s) = true := by
        refine List.any_eq_true.mpr ⟨s, hs.1, ?_⟩
        rcases hor with hok | ⟨e, herr⟩
        · simp [hs.2, appliesB, hok]
        · simp [hs.2, appliesB, herr]
      simp [hany, heff]
    | none =>
      have hdall := (denyScan_eq_none_iff ec req _).mp hd
      have hany : (stmts.any fun s => s.Effect == effectDeny && appliesB ec req s) = false := by
        cases hcase : stmts.any fun s => s.Effect == effectDeny && appliesB ec req s with
        | false => rfl
        | true =>
          exfalso
          obtain ⟨s, hsmem, hsb⟩ := List.any_eq_true.mp hcase
          simp only [Bool.and_eq_true, beq_iff_eq] at hsb
          have hmem := (mem_filterStatementsByEffect stmts effectDeny s).mpr ⟨hsmem, hsb.1⟩
          have := hdall s hmem
          simp [appliesB, this] at hsb
      simp only [hd] at h
      cases ha : allowScan ec req (filterStatementsByEffect stmts effectAllow) with
      | some ra =>
        simp only [ha, Except.ok.injEq] at h
        subst h
        obtain ⟨heff, _, s, hmem, _, hok⟩ := allowScan_some_spec ec req _ ra ha
        have hs := (mem_filterStatementsByEffect stmts effectAllow s).mp hmem
        have hany2 : (stmts.any fun s => s.Effect == effectAllow && matchesTrueB ec req s) = true := by
          refine List.any_eq_true.mpr ⟨s, hs.1, ?_⟩
          simp [hs.2, matchesTrueB, hok]
        simp [hany, hany2, heff]
      | none =>
        have haall := (allowScan_eq_none_iff ec req _).mp ha
        have hany2 : (stmts.any fun s => s.Effect == effectAllow && matchesTrueB ec req s) = false := by
          cases hcase : stmts.any fun s => s.Effect == effectAllow && matchesTrueB ec req s with
          | false => rfl
          | true =>
            exfalso
            obtain ⟨s, hsmem, hsb⟩ := List.any_eq_true.mp hcase
            simp only [Bool.and_eq_true, beq_iff_eq] at hsb
            have hmem := (mem_filterStatementsByEffect stmts effectAllow s).mpr ⟨hsmem, hsb.1⟩
            have := haall s hmem
            simp only [matchesTrueB] at hsb
            rcases hsb with ⟨-, hsb⟩
            cases hsm : statementMatches ec s req with
            | error e => simp [hsm] at hsb
            | ok b => cases b with
              | true => exact this hsm
              | false => simp [hsm] at hsb
        simp only [ha, Except.ok.injEq] at h
        subst h
        simp [hany, hany2]
        rfl

/-- `List.any` is invariant under permutation of the list. -/
theorem any_eq_of_perm (l l' : List Statement) (f : Statement → Bool)
    (hp : l.Perm l') : l.any f = l'.any f := by
  cases hla : l.any f with
  | true =>
    obtain ⟨s, hs, hfs⟩ := List.any_eq_true.mp hla
    exact (List.any_eq_true.mpr ⟨s, hp.mem_iff.mp hs, hfs⟩).symm
  | false =>
    cases hlb : l'.any f with
    | false => rfl
    | true =>
      exfalso
      obtain ⟨s, hs, hfs⟩ := List.any_eq_true.mp hlb
      have := List.any_eq_true.mpr ⟨s, hp.mem_iff.mpr hs, hfs⟩
      rw [hla] at this
      cases this

/-- `effectSpec` is invariant under permutation of the statement set. -/
theorem effectSpec_perm (ec : Condition → Request → Except String Bool)
    (req : Request) (stmts stmts' : List Statement)
    (hp : stmts.Perm stmts') :
    effectSpec ec req stmts = effectSpec ec req stmts' := by
  unfold effectSpec
  have hemp : stmts.isEmpty = stmts'.isEmpty := by
    cases stmts with
    | nil => cases stmts' with
      | nil => rfl
      | cons a l => exact absurd hp.symm (by simp)
    | cons a l => cases stmts' with
      | nil => exact absurd hp (by simp)
      | cons b m => rfl
  rw [hemp, any_eq_of_perm stmts stmts' _ hp, any_eq_of_perm stmts stmts' _ hp]

/-! ## Decidable equality for `Except`, and concrete fixtures -/

instance {ε α : Type} [DecidableEq ε] [DecidableEq α] : DecidableEq (Except ε α) :=
  fun a b =>
    match a, b with
    | .error e1, .error e2 =>
      if h : e1 = e2 then isTrue (by rw [h])
      else isFalse (by intro hc; cases hc; exact h rfl)
    | .ok v1, .ok v2 =>
      if h : v1 = v2 then isTrue (by rw [h])
      else isFalse (by intro hc; cases hc; exact h rfl)
    | .error _, .ok _ => isFalse (by intro hc; cases hc)
    | .ok _, .error _ => isFalse (by intro hc; cases hc)

/-- A concrete condition oracle for witnesses: expression `"true"` holds,
`"false"` does not, and anything else fails to evaluate, as a malformed
expression does under the external engine. -/
def testCondEval : Condition → Request → Except String Bool :=
  fun c _ =>
    if c.Expression = "true" then .ok true
    else if c.Expression = "false" then .ok false
    else .error "unexpected token"

/-- The request of the repository's own evaluator tests. -/
def testReq : Request :=
  { Principal := "user:1", Action := "read", Resource := "document:1" }

/-- An allow statement matching `testReq`, no conditions. -/
def allowRead : Statement :=
  { ID := "allow-read", Effect := effectAllow, Principals := ["user:1"],
    Actions := ["read"], Resources := ["document:1"] }

/-- A second allow statement matching `testReq`, distinct ID. -/
def allowRead2 : Statement :=
  { ID := "allow-read-2", Effect := effectAllow, Principals := ["user:1"],
    Actions := ["read"], Resources := ["document:1"] }

/-- A deny statement matching `testReq`, no conditions. -/
def denyRead : Statement :=
  { ID := "deny-read", Effect := effectDeny, Principals := ["user:1"],
    Actions := ["read"], Resources := ["document:1"] }

/-- A deny statement structurally matching `testReq` whose condition fails
to evaluate. -/
def denyBadCond : Statement :=
  { ID := "deny-bad-cond", Effect := effectDeny, Principals := ["user:1"],
    Actions := ["read"], Resources := ["document:1"],
    Conditions := [{ Name := "BadCond", Expression := "invalid syntax" }] }

/-- An allow statement structurally matching `testReq` whose condition fails
to evaluate. -/
def allowBadCond : Statement :=
  { ID := "allow-bad-cond", Effect := effectAllow, Principals := ["user:1"],
    Actions := ["read"], Resources := ["document:1"],
    Conditions := [{ Name := "BadCond", Expression := "invalid syntax" }] }

example : statementMatches testCondEval denyRead testReq = .ok true := by decide
example : statementMatches testCondEval denyBadCond testReq =
  .error "failed to evaluate condition \"BadCond\": unexpected token" := by decide
example : evaluate testCondEval (fun _ => .ok [allowRead]) testReq =
  .ok ⟨effectAllow, "allowed by statement \"allow-read\"", some "allow-read"⟩ := by decide

/-! ## Claim C1 -/

/-- Claim C1 (amended): for every request and statement set in which at
least one Deny-effect statement and at least one Allow-effect statement both
structurally match and have all conditions evaluate true, `Evaluate` returns
Effect Deny, with Decider equal to the ID of a Deny-effect statement of the
set that either fully matches or whose condition evaluation errored,
regardless of the order in which the statements appear.  (The original
claim's stronger conclusion — Decider always names a fully matching Deny
statement — fails when an erroring Deny statement precedes it, see the
counterexample.) -/
theorem c1_deny_overrides_allow
    (ec : Condition → Request → Except String Bool) (stmts : List Statement) (req : Request)
    (hd : ∃ d, d ∈ stmts ∧ d.Effect = effectDeny ∧ statementMatches ec d req = .ok true)
    (ha : ∃ a, a ∈ stmts ∧ a.Effect = effectAllow ∧ statementMatches ec a req = .ok true) :
    ∃ r, evaluate ec (fun _ => .ok stmts) req = .ok r ∧ r.Effect = effectDeny ∧
      ∃ d, d ∈ stmts ∧ d.Effect = effectDeny ∧ r.Decider = some d.ID ∧
        (statementMatches ec d req = .ok true ∨
          ∃ e, statementMatches ec d req = .error e) := by
  obtain ⟨d, hdm, hdeff, hdok⟩ := hd
  have hne : stmts.isEmpty = false := by
    cases stmts with
    | nil => simp at hdm
    | cons a l => rfl
  have hdf : d ∈ filterStatementsByEffect stmts effectDeny :=
    (mem_filterStatementsByEffect stmts effectDeny d).mpr ⟨hdm, hdeff⟩
  cases hds : denyScan ec req (filterStatementsByEffect stmts effectDeny) with
  | none =>
    exfalso
    have hfalse := (denyScan_eq_none_iff ec req _).mp hds d hdf
    rw [hdok] at hfalse
    simp at hfalse
  | some rd =>
    obtain ⟨heff, hiss, s, hsmem, hdec, hor⟩ := denyScan_some_spec ec req _ rd hds
    have hs := (mem_filterStatementsByEffect stmts effectDeny s).mp hsmem
    refine ⟨rd, ?_, heff, s, hs.1, hs.2, hdec, hor⟩
    unfold evaluate
    simp [hne, hds]

/-- Claim C1 witness: the deny/allow pair of the repository's own
"Deny Overrides Allow" test. -/
theorem c1_witness :
    (∃ d, d ∈ [allowRead, denyRead] ∧ d.Effect = effectDeny ∧
      statementMatches testCondEval d testReq = .ok true) ∧
    (∃ a, a ∈ [allowRead, denyRead] ∧ a.Effect = effectAllow ∧
      statementMatches testCondEval a testReq = .ok true) ∧
    (∃ r, evaluate testCondEval (fun _ => .ok [allowRead, denyRead]) testReq = .ok r ∧
      r.Effect = effectDeny ∧
      ∃ d, d ∈ [allowRead, denyRead] ∧ d.Effect = effectDeny ∧ r.Decider = some d.ID ∧
        (statementMatches testCondEval d testReq = .ok true ∨
          ∃ e, statementMatches testCondEval d testReq = .error e)) :=
  ⟨⟨denyRead, by decide, by decide, by decide⟩,
   ⟨allowRead, by decide, by decide, by decide⟩,
   c1_deny_overrides_allow testCondEval [allowRead, denyRead] testReq
     ⟨denyRead, by decide, by decide, by decide⟩
     ⟨allowRead, by decide, by decide, by decide⟩⟩

/-- Claim C1 counterexample to the original conclusion: in the set
`[denyBadCond, denyRead, allowRead]` the only Deny statement that
structurally matches with all conditions true is `denyRead` (ID
"deny-read"), yet the returned Decider is "deny-bad-cond", the ID of the
Deny statement whose condition evaluation errored. -/
theorem c1_cex :
    statementMatches testCondEval denyRead testReq = .ok true ∧
    denyRead.Effect = effectDeny ∧
    statementMatches testCondEval allowRead testReq = .ok true ∧
    allowRead.Effect = effectAllow ∧
    (∀ d, d ∈ [denyBadCond, denyRead, allowRead] → d.Effect = effectDeny →
      statementMatches testCondEval d testReq = .ok true → d.ID = "deny-read") ∧
    (∃ r, evaluate testCondEval
        (fun _ => .ok [denyBadCond, denyRead, allowRead]) testReq = .ok r ∧
      r.Effect = effectDeny ∧ r.Decider = some "deny-bad-cond") ∧
    "deny-bad-cond" ≠ "deny-read" := by
  exact ⟨by decide, by decide, by decide, by decide, by decide,
    ⟨⟨effectDeny,
      "failed to evaluate condition for deny statement \"deny-bad-cond\": failed to evaluate condition \"BadCond\": unexpected token",
      some "deny-bad-cond"⟩, by decide, by decide, by decide⟩, by decide⟩

/-! ## Claim C2 -/

/-- Helper: when the expansion loop aborts, the aborting response is a Deny
with absent Decider. -/
theorem expandScan_error_spec (base : Request → Except String Response)
    (req : Request) (ps : List String) :
    ∀ d a acc rr, expandScan base req ps d a acc = .error rr →
      rr.Effect = effectDeny ∧ rr.Decider = none := by
  induction ps with
  | nil => intro d a acc rr h; simp [expandScan] at h
  | cons p rest ih =>
    intro d a acc rr h
    cases hr : base { req with Principal := p } with
    | error e =>
      simp only [expandScan, hr, Except.error.injEq] at h
      subst h
      exact ⟨rfl, rfl⟩
    | ok r =>
      simp only [expandScan, hr] at h
      exact ih _ _ _ _ h

/-- Claim C2: at the decision-evaluator layer, the Decider of a successful
evaluation is non-nil exactly when the result is not one of the two
default-deny responses; the empty candidate set yields the empty default;
the two default messages are distinct; and at the expansion layer the
Decider is non-nil exactly when some resolved principal's evaluation was an
explicit (non-nil Decider) deny or allow outcome, in which case the Decider
is `principal_expansion:` followed by that principal. -/
theorem c2_decider_iff :
    (∀ ec stmts req r, evaluate ec (fun _ => .ok stmts) req = .ok r →
      (r.Decider = none ↔ (r = emptyDefaultResponse ∨ r = noMatchDefaultResponse))) ∧
    (∀ (ec : Condition → Request → Except String Bool) (req : Request),
      evaluate ec (fun _ => .ok ([] : List Statement)) req = .ok emptyDefaultResponse) ∧
    emptyDefaultResponse.Message ≠ noMatchDefaultResponse.Message ∧
    (∀ base resolve req r, expandingEvaluate base resolve req = .ok r →
      (r.Decider ≠ none ↔ ∃ ps p, resolve req.Principal = .ok ps ∧ p ∈ ps ∧
        r.Decider = some ("principal_expansion:" ++ p) ∧
        (isExpDeny base req p = true ∨ isExpAllow base req p = true))) := by
  refine ⟨evaluate_decider_none_iff, ?_, by decide, ?_⟩
  · intro ec req
    unfold evaluate
    rfl
  · intro base resolve req r h
    constructor
    · intro hne
      cases hres : resolve req.Principal with
      | error e =>
        simp only [expandingEvaluate, hres, Except.ok.injEq] at h
        subst h
        simp at hne
      | ok ps =>
        cases hscan : expandScan base req ps none none [] with
        | error rr =>
          simp only [expandingEvaluate, hres, hscan, Except.ok.injEq] at h
          subst h
          obtain ⟨-, hdec⟩ := expandScan_error_spec base req ps none none [] _ hscan
          exact absurd hdec hne
        | ok t =>
          obtain ⟨rs, denying, allowing⟩ := t
          have hallok := expandScan_ok_all_ok base req ps none none [] _ hscan
          obtain ⟨rs', hscan', -⟩ := expandScan_ok_spec base req ps hallok none none []
          rw [hscan] at hscan'
          simp only [Except.ok.injEq, Prod.mk.injEq, orFind] at hscan'
          obtain ⟨-, hdeq, haeq⟩ := hscan'
          cases hdcase : denying with
          | some p =>
            rw [hdcase] at hscan hdeq
            simp only [expandingEvaluate, hres, hscan, Except.ok.injEq] at h
            subst h
            have hfind := hdeq.symm
            exact ⟨ps, p, rfl, List.mem_of_find?_eq_some hfind,
              rfl, .inl (List.find?_some hfind)⟩
          | none =>
            rw [hdcase] at hscan
            cases hacase : allowing with
            | some p =>
              rw [hacase] at hscan haeq
              simp only [expandingEvaluate, hres, hscan, Except.ok.injEq] at h
              subst h
              have hfind := haeq.symm
              exact ⟨ps, p, rfl, List.mem_of_find?_eq_some hfind,
                rfl, .inr (List.find?_some hfind)⟩
            | none =>
              rw [hacase] at hscan
              simp only [expandingEvaluate, hres, hscan, Except.ok.injEq] at h
              subst h
              simp [expandDefaultResponse] at hne
    · rintro ⟨ps, p, hres, hmem, hdec, hexp⟩
      rw [hdec]
      simp

/-- Claim C2 witness: the Decider characterization applied at an explicit
allow outcome, and the empty-candidate default at a concrete request. -/
theorem c2_witness :
    ((⟨effectAllow, "allowed by statement \"allow-read\"", some "allow-read"⟩ : Response).Decider = none ↔
      ((⟨effectAllow, "allowed by statement \"allow-read\"", some "allow-read"⟩ : Response) = emptyDefaultResponse ∨
        (⟨effectAllow, "allowed by statement \"allow-read\"", some "allow-read"⟩ : Response) = noMatchDefaultResponse)) ∧
    evaluate testCondEval (fun _ => .ok ([] : List Statement)) testReq = .ok emptyDefaultResponse :=
  ⟨c2_decider_iff.1 testCondEval [allowRead] testReq _ (by decide),
   c2_decider_iff.2.1 testCondEval testReq⟩

/-! ## Claim C3 -/

/-- Claim C3: when the resolver succeeds and no per-principal evaluation
raises a hard error, the Expanding Evaluator invokes the wrapped evaluator
once per resolved principal without stopping early (one audited response per
principal), and returns the spec merge: Deny with Decider
`principal_expansion:` + the first resolved principal with an explicit deny,
if any — even when an earlier principal got an explicit allow; else Allow
with `principal_expansion:` + the first principal with an explicit allow;
else the expansion default deny with nil Decider. -/
theorem c3_expansion_merge (base : Request → Except String Response)
    (resolve : String → Except String (List String)) (req : Request) (ps : List String)
    (hres : resolve req.Principal = .ok ps)
    (hok : ∀ q ∈ ps, ∃ r, base { req with Principal := q } = .ok r) :
    expandingEvaluate base resolve req = .ok (mergeSpec base req ps) ∧
    ∃ rs d a, expandScan base req ps none none [] = .ok (rs, d, a) ∧
      rs.length = ps.length := by
  refine ⟨expandingEvaluate_merge base resolve req ps hres hok, ?_⟩
  obtain ⟨rs, hscan, hlen⟩ := expandScan_ok_spec base req ps hok none none []
  exact ⟨rs, _, _, hscan, by simpa using hlen⟩

/-- The wrapped evaluator of the spec §8 role-expansion scenario, as a
function: explicit allow for the moderator role, explicit deny for the
analyst role, the no-match default for everything else. -/
def base0 : Request → Except String Response :=
  fun req =>
    if req.Principal = "roles/moderator" then
      .ok ⟨effectAllow, "allowed by statement \"allow-mod\"", some "allow-mod"⟩
    else if req.Principal = "roles/analyst" then
      .ok ⟨effectDeny, "denied by statement \"deny-analyst\"", some "deny-analyst"⟩
    else .ok noMatchDefaultResponse

/-- A resolver expanding any principal with the moderator and analyst
roles. -/
def resolve0 : String → Except String (List String) :=
  fun p => .ok [p, "roles/moderator", "roles/analyst"]

/-- The spec §8 role-expansion request. -/
def reqMark : Request :=
  { Principal := "users/mark", Action := "invoice.download",
    Resource := "invoices/238423684" }

/-- Claim C3 witness: the spec §8 scenario — the analyst role's explicit
deny overrides the moderator role's earlier explicit allow, and three
principals produce three audited responses. -/
theorem c3_witness :
    expandingEvaluate base0 resolve0 reqMark =
      .ok ⟨effectDeny, "access denied for principal roles/analyst",
        some "principal_expansion:roles/analyst"⟩ ∧
    (∃ rs d a, expandScan base0 reqMark ["users/mark", "roles/moderator", "roles/analyst"]
        none none [] = .ok (rs, d, a) ∧ rs.length = 3) ∧
    isExpAllow base0 reqMark "roles/moderator" = true := by
  have h := c3_expansion_merge base0 resolve0 reqMark
    ["users/mark", "roles/moderator", "roles/analyst"] (by decide)
    (by
      intro q hq
      simp only [List.mem_cons, List.not_mem_nil, or_false] at hq
      rcases hq with rfl | rfl | rfl
      · exact ⟨_, rfl⟩
      · exact ⟨_, rfl⟩
      · exact ⟨_, rfl⟩)
  refine ⟨?_, ?_, by decide⟩
  · rw [h.1]
    decide
  · simpa using h.2

/-! ## Claim C4 -/

/-- Helper: if the deny-effect candidates are a prefix of clean non-matches
followed by a statement whose condition evaluation errors, the evaluator
fails closed with that statement as Decider. -/
theorem evaluate_deny_error (ec : Condition → Request → Except String Bool)
    (storage : String → Except String (List Statement)) (req : Request)
    (stmts pre post : List Statement) (d : Statement) (e : String)
    (hstore : storage req.Principal = .ok stmts)
    (hsplit : filterStatementsByEffect stmts effectDeny = pre ++ d :: post)
    (hpre : ∀ s ∈ pre, statementMatches ec s req = .ok false)
    (herr : statementMatches ec d req = .error e) :
    evaluate ec storage req =
      .ok ⟨effectDeny,
        "failed to evaluate condition for deny statement \"" ++ d.ID ++ "\": " ++ e,
        some d.ID⟩ := by
  have hne : stmts.isEmpty = false := by
    cases hs : stmts with
    | nil =>
      rw [hs] at hsplit
      have hlen := congrArg List.length hsplit
      simp [filterStatementsByEffect] at hlen
      omega
    | cons a l => rfl
  unfold evaluate
  rw [hstore]
  simp only [hne, Bool.false_eq_true, if_false]
  rw [hsplit, denyScan_append_false ec req pre (d :: post) hpre]
  simp [denyScan, herr]

/-- Claim C4 (amended): if a Deny-effect statement structurally matches and
its condition evaluation errors, and it is the first statement of the deny
scan to apply (every earlier Deny-effect candidate is a clean non-match),
the Decision Evaluator returns a Deny Response whose Decider is that
statement's ID and whose message names the statement and the underlying
error, with a nil error value.  (The original claim, without the
first-to-apply qualification, fails when an earlier Deny statement fully
matches: see the counterexample.) -/
theorem c4_deny_error_fail_closed (ec : Condition → Request → Except String Bool)
    (stmts pre post : List Statement) (req : Request) (d : Statement) (e : String)
    (hsplit : filterStatementsByEffect stmts effectDeny = pre ++ d :: post)
    (hpre : ∀ s ∈ pre, statementMatches ec s req = .ok false)
    (herr : statementMatches ec d req = .error e) :
    evaluate ec (fun _ => .ok stmts) req =
      .ok ⟨effectDeny,
        "failed to evaluate condition for deny statement \"" ++ d.ID ++ "\": " ++ e,
        some d.ID⟩ :=
  evaluate_deny_error ec (fun _ => .ok stmts) req stmts pre post d e rfl hsplit hpre herr

/-- Claim C4 witness: a structurally matching Deny statement with an
unevaluable condition yields the fail-closed Deny naming it, with no hard
error. -/
theorem c4_witness :
    filterStatementsByEffect [allowRead, denyBadCond] effectDeny = [] ++ denyBadCond :: [] ∧
    statementMatches testCondEval denyBadCond testReq =
      .error "failed to evaluate condition \"BadCond\": unexpected token" ∧
    evaluate testCondEval (fun _ => .ok [allowRead, denyBadCond]) testReq =
      .ok ⟨effectDeny,
        "failed to evaluate condition for deny statement \"" ++ denyBadCond.ID ++ "\": " ++
          "failed to evaluate condition \"BadCond\": unexpected token",
        some denyBadCond.ID⟩ :=
  ⟨by decide, by decide,
    c4_deny_error_fail_closed testCondEval [allowRead, denyBadCond] [] [] testReq denyBadCond
      "failed to evaluate condition \"BadCond\": unexpected token"
      (by decide) (by intro s hs; simp at hs) (by decide)⟩

/-- Claim C4 counterexample to the original statement: `denyBadCond`
structurally matches and its condition evaluation errors, yet because the
fully matching `denyRead` precedes it in the candidate order, the evaluator
returns Decider "deny-read" — not `denyBadCond`'s ID, and the message does
not name it. -/
theorem c4_cex :
    statementMatches testCondEval denyBadCond testReq =
      .error "failed to evaluate condition \"BadCond\": unexpected token" ∧
    denyBadCond.Effect = effectDeny ∧
    principalMatches denyBadCond.Principals testReq.Principal = true ∧
    actionMatches denyBadCond.Actions testReq.Action = true ∧
    resourceMatches denyBadCond.Resources testReq.Resource = true ∧
    evaluate testCondEval (fun _ => .ok [denyRead, denyBadCond]) testReq =
      .ok ⟨effectDeny, "denied by statement \"deny-read\"", some "deny-read"⟩ ∧
    some "deny-read" ≠ some denyBadCond.ID := by
  decide

/-! ## Claim C5 -/

/-- Claim C5: an Allow-effect statement whose condition evaluation errors is
skipped — the allow scan of the remaining statements is unchanged; with an
ok storage answer the evaluator never raises a hard error; and when every
Deny-effect candidate is a clean non-match and no Allow-effect candidate
fully matches (each either fails structurally, has a false condition, or has
an erroring condition), the result is the no-match default deny — never
Allow and never a hard error. -/
theorem c5_allow_error_skipped :
    (∀ ec req stmt rest e, statementMatches ec stmt req = .error e →
      allowScan ec req (stmt :: rest) = allowScan ec req rest) ∧
    (∀ ec stmts req, ∃ r, evaluate ec (fun _ => .ok stmts) req = .ok r) ∧
    (∀ ec stmts req, stmts.isEmpty = false →
      (∀ s ∈ filterStatementsByEffect stmts effectDeny,
        statementMatches ec s req = .ok false) →
      (∀ s ∈ filterStatementsByEffect stmts effectAllow,
        statementMatches ec s req ≠ .ok true) →
      evaluate ec (fun _ => .ok stmts) req = .ok noMatchDefaultResponse) := by
  refine ⟨fun ec req stmt rest e h => allowScan_cons_error ec req stmt rest e h,
    evaluate_ok_of_storage_ok, ?_⟩
  intro ec stmts req hne hdeny hallow
  unfold evaluate
  simp only [hne, Bool.false_eq_true, if_false]
  rw [(denyScan_eq_none_iff ec req _).mpr hdeny,
    (allowScan_eq_none_iff ec req _).mpr hallow]

/-- Claim C5 witness: the lone Allow statement's condition errors; it is
skipped and the result is the no-match default deny with no hard error. -/
theorem c5_witness :
    allowScan testCondEval testReq [allowBadCond] = allowScan testCondEval testReq [] ∧
    evaluate testCondEval (fun _ => .ok [allowBadCond]) testReq =
      .ok noMatchDefaultResponse := by
  refine ⟨c5_allow_error_skipped.1 testCondEval testReq allowBadCond []
      "failed to evaluate condition \"BadCond\": unexpected token" (by decide),
    c5_allow_error_skipped.2.2 testCondEval [allowBadCond] testReq (by decide) ?_ ?_⟩
  · intro s hs
    have hf : filterStatementsByEffect [allowBadCond] effectDeny = [] := by decide
    rw [hf] at hs
    simp at hs
  · intro s hs
    have hf : filterStatementsByEffect [allowBadCond] effectAllow = [allowBadCond] := by decide
    rw [hf] at hs
    have hs' : s = allowBadCond := by simpa using hs
    subst hs'
    decide

/-! ## Claim C6 -/

/-- Claim C6: the two layers use opposite error channels.  A storage failure
in the Decision Evaluator aborts evaluation with a hard error (no Response);
a resolver failure in the Expanding Evaluator becomes a normal Deny Response
embedding the error text, with nil error; and a per-principal evaluation
failure likewise becomes a normal Deny Response embedding the error text,
with nil error. -/
theorem c6_error_channels :
    (∀ ec storage req e, storage req.Principal = .error e →
      evaluate ec storage req = .error ("failed to list statements: " ++ e)) ∧
    (∀ (base : Request → Except String Response) resolve req e,
      resolve req.Principal = .error e →
      expandingEvaluate base resolve req =
        .ok ⟨effectDeny, "failed to resolve principals: " ++ e, none⟩) ∧
    (∀ (base : Request → Except String Response) resolve req pre p post e,
      resolve req.Principal = .ok (pre ++ p :: post) →
      (∀ q ∈ pre, ∃ r, base { req with Principal := q } = .ok r) →
      base { req with Principal := p } = .error e →
      expandingEvaluate base resolve req =
        .ok ⟨effectDeny, "evaluation error for principal " ++ p ++ ": " ++ e, none⟩) := by
  refine ⟨?_, ?_, ?_⟩
  · intro ec storage req e he
    unfold evaluate
    rw [he]
  · intro base resolve req e he
    unfold expandingEvaluate
    rw [he]
  · intro base resolve req pre p post e hres hpre herr
    simp only [expandingEvaluate, hres,
      expandScan_error_after base req pre p post e hpre herr]

/-- A wrapped evaluator that raises a hard error for one principal. -/
def baseErr : Request → Except String Response :=
  fun req =>
    if req.Principal = "roles/bad" then .error "boom"
    else .ok noMatchDefaultResponse

/-- A resolver expanding any principal with the failing role. -/
def resolveToBad : String → Except String (List String) :=
  fun p => .ok [p, "roles/bad"]

/-- Claim C6 witness: the three error channels at concrete inputs — a
storage failure propagates as a hard error, a resolver failure and a
per-principal evaluation failure each become normal Deny responses. -/
theorem c6_witness :
    evaluate testCondEval (fun _ => .error "database is down") testReq =
      .error ("failed to list statements: " ++ "database is down") ∧
    expandingEvaluate base0 (fun _ => .error "resolver down") testReq =
      .ok ⟨effectDeny, "failed to resolve principals: " ++ "resolver down", none⟩ ∧
    expandingEvaluate baseErr resolveToBad testReq =
      .ok ⟨effectDeny, "evaluation error for principal " ++ "roles/bad" ++ ": " ++ "boom",
        none⟩ := by
  have h1 := c6_error_channels.1 testCondEval (fun _ => .error "database is down") testReq
    "database is down" rfl
  have h2 := c6_error_channels.2.1 base0 (fun _ => .error "resolver down") testReq
    "resolver down" rfl
  have hpre : ∀ q ∈ ["user:1"], ∃ r, baseErr { testReq with Principal := q } = .ok r := by
    intro q hq
    have hq' : q = "user:1" := by simpa using hq
    subst hq'
    exact ⟨_, rfl⟩
  have h3 := c6_error_channels.2.2 baseErr resolveToBad testReq ["user:1"] "roles/bad" []
    "boom" (by decide) hpre (by decide)
  exact ⟨h1, h2, h3⟩

/-! ## Claim C7 -/

/-- Claim C7 (amended): evaluating the same request twice yields identical
Responses when storage returns the statements in the same order; when the
in-memory reference store's map iteration presents the same statement set in
a different order (any permutation), the Effect is still invariant, but the
full Response — Decider and Message — need not be (see the counterexample
with two matching Allow statements). -/
theorem c7_effect_perm_invariant (ec : Condition → Request → Except String Bool)
    (stmts stmts' : List Statement) (req : Request)
    (hp : stmts.Perm stmts') :
    ∃ r r', evaluate ec (fun _ => .ok stmts) req = .ok r ∧
      evaluate ec (fun _ => .ok stmts') req = .ok r' ∧ r.Effect = r'.Effect := by
  obtain ⟨r, hr⟩ := evaluate_ok_of_storage_ok ec stmts req
  obtain ⟨r', hr'⟩ := evaluate_ok_of_storage_ok ec stmts' req
  refine ⟨r, r', hr, hr', ?_⟩
  rw [evaluate_effect_eq_effectSpec ec stmts req r hr,
    evaluate_effect_eq_effectSpec ec stmts' req r' hr',
    effectSpec_perm ec req stmts stmts' hp]

/-- Claim C7 witness: the Effect is the same across the two iteration orders
of the two-allow statement set. -/
theorem c7_witness :
    ∃ r r', evaluate testCondEval (fun _ => .ok [allowRead, allowRead2]) testReq = .ok r ∧
      evaluate testCondEval (fun _ => .ok [allowRead2, allowRead]) testReq = .ok r' ∧
      r.Effect = r'.Effect :=
  c7_effect_perm_invariant testCondEval [allowRead, allowRead2] [allowRead2, allowRead]
    testReq (List.Perm.swap allowRead2 allowRead [])

/-- Claim C7 counterexample to the original statement: the same unchanged
statement set `{allowRead, allowRead2}`, presented by the in-memory store's
map iteration in its two possible orders, yields two different Responses —
the reported Decider (and Message) depends on the iteration order, so
repeated evaluation is not guaranteed byte-identical when multiple
statements of the same effect match. -/
theorem c7_cex :
    [allowRead, allowRead2].Perm [allowRead2, allowRead] ∧
    listStatementsByPrincipal [allowRead, allowRead2] "user:1" = [allowRead, allowRead2] ∧
    listStatementsByPrincipal [allowRead2, allowRead] "user:1" = [allowRead2, allowRead] ∧
    evaluate testCondEval
        (fun _ => .ok (listStatementsByPrincipal [allowRead, allowRead2] "user:1")) testReq =
      .ok ⟨effectAllow, "allowed by statement \"allow-read\"", some "allow-read"⟩ ∧
    evaluate testCondEval
        (fun _ => .ok (listStatementsByPrincipal [allowRead2, allowRead] "user:1")) testReq =
      .ok ⟨effectAllow, "allowed by statement \"allow-read-2\"", some "allow-read-2"⟩ ∧
    (⟨effectAllow, "allowed by statement \"allow-read\"", some "allow-read"⟩ : Response) ≠
      ⟨effectAllow, "allowed by statement \"allow-read-2\"", some "allow-read-2"⟩ :=
  ⟨List.Perm.swap allowRead2 allowRead [], by decide, by decide, by decide, by decide,
    by decide⟩

/-! ## Claim C8 -/

/-- Claim C8 (amended): the in-memory reference store's
`ListStatementsByPrincipal` returns exactly the statements one of whose
principal patterns matches the given principal — regardless of the `Active`
flag, which the store does not consult (the original claim's active-only
filtering is refuted by the counterexample). -/
theorem c8_list_by_principal (stmts : List Statement) (principal : String) (s : Statement) :
    s ∈ listStatementsByPrincipal stmts principal ↔
      s ∈ stmts ∧ (s.Principals.any fun p => doublestarMatch p principal) = true := by
  simp [listStatementsByPrincipal, List.mem_filter]

/-- Claim C8 counterexample: a statement whose `Active` flag is false and
whose principal pattern matches is still returned by the store (the
repository's own evaluator tests rely on this: their statements never set
`Active`). -/
theorem c8_cex :
    allowRead.Active = false ∧
    listStatementsByPrincipal [allowRead] "user:1" = [allowRead] ∧
    listStatementsByPrincipal [allowRead] "user:1" ≠ [] := by
  decide

/-! ## Claim C9 -/

/-- A statement whose only principal pattern is the bare `*`. -/
def starStmt : Statement :=
  { ID := "allow-star", Effect := effectAllow, Principals := ["*"],
    Actions := ["read"], Resources := ["document:1"] }

/-- Claim C9 (amended): in statement evaluation inside the Decision
Evaluator, a bare `*` pattern is normalized to `**` by `enhancePattern`
before matching and therefore matches every candidate, including
multi-segment candidates containing `/`; the in-memory store's principal
filtering, however, matches the raw pattern without this normalization, so a
bare `*` there fails to match multi-segment principals (the original
claim's "wherever a pattern is matched" is refuted by the counterexample). -/
theorem c9_star_normalization :
    enhancePattern "*" = "**" ∧
    (∀ c, doublestarMatch "**" c = true) ∧
    (∀ c, principalMatches ["*"] c = true) ∧
    (∀ c, actionMatches ["*"] c = true) ∧
    (∀ c, resourceMatches ["*"] c = true) ∧
    doublestarMatch "*" "users/mark" = false ∧
    listStatementsByPrincipal [starStmt] "users/mark" = [] :=
  ⟨rfl, doublestarMatch_starstar, principalMatches_star, actionMatches_star,
    resourceMatches_star, by decide, by decide⟩

/-- Claim C9 counterexample to the original statement: the evaluator-side
principal matching accepts the bare `*` against the multi-segment principal
"users/mark" (normalization applied), but the in-memory store's filtering of
the very same pattern rejects it — the statement is not returned — because
the store matches the raw pattern without normalizing `*` to `**`. -/
theorem c9_cex :
    starStmt.Principals = ["*"] ∧
    principalMatches starStmt.Principals "users/mark" = true ∧
    doublestarMatch "*" "users/mark" = false ∧
    listStatementsByPrincipal [starStmt] "users/mark" = [] := by
  decide

/-! ## Claim C10 -/

/-- Claim C10: if the resolver yields `ps` with no per-principal hard error,
and the first resolved principal `p` reported as an explicit deny owes that
report to a Deny statement whose condition evaluation errored (every earlier
Deny candidate for `p` a clean non-match), then the base evaluator's
fail-closed Deny carries that statement's ID as non-nil Decider, and the
merged result of the Expanding Evaluator is Deny with Decider
`principal_expansion:` + `p` — whatever explicit Allows other resolved
principals obtained, so the unevaluable deny condition fails closed across
the whole expansion. -/
theorem c10_deny_error_expands (ec : Condition → Request → Except String Bool)
    (storage : String → Except String (List Statement))
    (resolve : String → Except String (List String)) (req : Request)
    (ps : List String) (p : String) (stmtsP pre post : List Statement)
    (d : Statement) (e : String)
    (hres : resolve req.Principal = .ok ps)
    (hok : ∀ q ∈ ps, ∃ r, evaluate ec storage { req with Principal := q } = .ok r)
    (hfirst : ps.find? (isExpDeny (evaluate ec storage) req) = some p)
    (hstore : storage p = .ok stmtsP)
    (hsplit : filterStatementsByEffect stmtsP effectDeny = pre ++ d :: post)
    (hpre : ∀ s ∈ pre, statementMatches ec s { req with Principal := p } = .ok false)
    (herr : statementMatches ec d { req with Principal := p } = .error e) :
    evaluate ec storage { req with Principal := p } =
      .ok ⟨effectDeny,
        "failed to evaluate condition for deny statement \"" ++ d.ID ++ "\": " ++ e,
        some d.ID⟩ ∧
    expandingEvaluate (evaluate ec storage) resolve req =
      .ok ⟨effectDeny, "access denied for principal " ++ p,
        some ("principal_expansion:" ++ p)⟩ := by
  have hbase := evaluate_deny_error ec storage { req with Principal := p }
    stmtsP pre post d e hstore hsplit hpre herr
  have hmerge := expandingEvaluate_merge (evaluate ec storage) resolve req ps hres hok
  refine ⟨hbase, ?_⟩
  rw [hmerge]
  simp only [mergeSpec, hfirst]

/-- An allow statement for the moderator role on the spec §8 scenario. -/
def allowMod : Statement :=
  { ID := "allow-mod", Effect := effectAllow, Principals := ["roles/moderator"],
    Actions := ["invoice.download"], Resources := ["invoices/*"] }

/-- A deny statement for the analyst role whose condition cannot be
evaluated. -/
def denyBadAnalyst : Statement :=
  { ID := "deny-bad-analyst", Effect := effectDeny, Principals := ["roles/analyst"],
    Actions := ["invoice.download"], Resources := ["invoices/*"],
    Conditions := [{ Name := "BadCond", Expression := "invalid syntax" }] }

/-- Storage for the C10 scenario: the analyst role sees only the
bad-condition deny statement, the moderator role only the allow. -/
def storage10 : String → Except String (List Statement) :=
  fun principal =>
    if principal = "roles/analyst" then .ok [denyBadAnalyst]
    else if principal = "roles/moderator" then .ok [allowMod]
    else .ok []

/-- Claim C10 witness: the analyst role's unevaluable deny condition fails
closed across the expansion, overriding the moderator role's explicit
allow. -/
theorem c10_witness :
    evaluate testCondEval storage10 { reqMark with Principal := "roles/analyst" } =
      .ok ⟨effectDeny,
        "failed to evaluate condition for deny statement \"deny-bad-analyst\": failed to evaluate condition \"BadCond\": unexpected token",
        some "deny-bad-analyst"⟩ ∧
    expandingEvaluate (evaluate testCondEval storage10) resolve0 reqMark =
      .ok ⟨effectDeny, "access denied for principal roles/analyst",
        some "principal_expansion:roles/analyst"⟩ ∧
    isExpAllow (evaluate testCondEval storage10) reqMark "roles/moderator" = true := by
  have hok : ∀ q ∈ ["users/mark", "roles/moderator", "roles/analyst"], ∃ r,
      evaluate testCondEval storage10 { reqMark with Principal := q } = .ok r := by
    intro q hq
    simp only [List.mem_cons, List.not_mem_nil, or_false] at hq
    rcases hq with rfl | rfl | rfl
    · exact ⟨_, rfl⟩
    · exact ⟨_, rfl⟩
    · exact ⟨_, rfl⟩
  have hpre : ∀ s ∈ ([] : List Statement),
      statementMatches testCondEval s { reqMark with Principal := "roles/analyst" } =
        .ok false := by
    intro s hs
    simp at hs
  have h := c10_deny_error_expands testCondEval storage10 resolve0 reqMark
    ["users/mark", "roles/moderator", "roles/analyst"] "roles/analyst"
    [denyBadAnalyst] [] [] denyBadAnalyst
    "failed to evaluate condition \"BadCond\": unexpected token"
    (by decide) hok (by decide) (by decide) (by decide) hpre (by decide)
  refine ⟨?_, ?_, by decide⟩
  · rw [h.1]
    decide
  · rw [h.2]
    decide
